import Mathlib

/-!
Verification of the abstract-integers library: bounded natural integers with a
checked arithmetic discipline, plus refined modular integers wrapping a base
checked type. The embedding models a value of a checked type generated with
a given bit count as the natural-number magnitude decoded (big-endian) from its
fixed byte buffer of length (bits + 7) / 8; the byte buffer of that fixed
length is in bijection with magnitudes below 2 ^ (8 * numBytes bits), and the
equality and ordering of the generated types compare exactly these magnitudes,
so the Nat model is faithful. Rust panics are modelled as errors of an explicit
error type, one constructor per distinct panic site.
-/

namespace AbstractIntegers

/-- The failure modes of the library. Each constructor corresponds to one
panic site in the source: OutOfRange to the literal-too-big panic in
from_literal, Overflow to the bounded-addition/multiplication overflow panic,
Underflow to the bounded-subtraction underflow panic, DivisionByZero to the
dividing-by-zero panic, and StorageTooNarrow to the BigUint-too-big panic in
the conversion from a big integer into the fixed-width byte buffer. -/
inductive Error where
  | OutOfRange
  | Overflow
  | Underflow
  | DivisionByZero
  | StorageTooNarrow
  deriving DecidableEq, Repr

namespace Checked

/-- Number of bytes of the fixed buffer: in the source, ($bits + 7) / 8. -/
def numBytes (bits : Nat) : Nat := (bits + 7) / 8

/-- Number of base-256 digits of the second argument (zero digits for zero),
computed with the first argument as structural fuel; any fuel at least the
second argument is enough. -/
def digitsBE : Nat → Nat → Nat
  | _, 0 => 0
  | 0, _ => 1
  | fuel + 1, y => digitsBE fuel (y / 256) + 1

/-- Length of the big-endian byte encoding produced by to_bytes_be: one byte
for zero, otherwise the number of base-256 digits. -/
def byteLength (x : Nat) : Nat := if x = 0 then 1 else digitsBE x x

/-- Exclusive upper bound of the magnitudes that fit the fixed byte buffer. -/
def capacity (bits : Nat) : Nat := 2 ^ (8 * numBytes bits)

/-- The conversion From BigUint in the source: takes the big-endian bytes of
x, panics when they exceed the fixed buffer length, otherwise left-pads with
zero bytes; decoding back yields x itself. -/
def fromBigUint (bits x : Nat) : Except Error Nat :=
  if byteLength x > numBytes bits then .error .StorageTooNarrow else .ok x

/-- The conversion Into BigUint in the source reads the stored bytes back as
a big-endian magnitude; in the Nat model it is the identity, and total. -/
def toBigUint (x : Nat) : Nat := x

/-- max() in the source: BigUint::from(2u32).shl($bits), that is 2 <<< bits. -/
def max (bits : Nat) : Nat := 2 <<< bits

/-- from_literal: rejects literals above max(), then converts through the
From BigUint conversion. -/
def from_literal (bits x : Nat) : Except Error Nat :=
  if x > max bits then .error .OutOfRange else fromBigUint bits x

/-- pow2: BigUint::from(1u32).shl(x) converted through From BigUint; note the
source performs no comparison against max() here. -/
def pow2 (bits x : Nat) : Except Error Nat :=
  fromBigUint bits (1 <<< x)

/-- Checked addition: exact sum, overflow panic when the sum exceeds max(),
then conversion back into the fixed buffer. -/
def add (bits a b : Nat) : Except Error Nat :=
  if a + b > max bits then .error .Overflow else fromBigUint bits (a + b)

/-- Checked subtraction: checked_sub panics on underflow (b above a),
otherwise converts the difference back. -/
def sub (bits a b : Nat) : Except Error Nat :=
  if b ≤ a then fromBigUint bits (a - b) else .error .Underflow

/-- Checked multiplication: exact product, overflow panic when the product
exceeds max(), then conversion back. -/
def mul (bits a b : Nat) : Except Error Nat :=
  if a * b > max bits then .error .Overflow else fromBigUint bits (a * b)

/-- Checked division: panics on a zero divisor, otherwise exact quotient. -/
def div (bits a b : Nat) : Except Error Nat :=
  if b = 0 then .error .DivisionByZero else fromBigUint bits (a / b)

/-- Checked remainder: panics on a zero divisor, otherwise exact remainder. -/
def rem (bits a b : Nat) : Except Error Nat :=
  if b = 0 then .error .DivisionByZero else fromBigUint bits (a % b)

end Checked

namespace Refined

/-- Refined from_literal: rejects literals above the modulus m, then converts
the literal through the base From BigUint conversion and wraps it, with no
modular reduction of the value itself. -/
def from_literal (bits m x : Nat) : Except Error Nat :=
  if x > m then .error .OutOfRange else Checked.fromBigUint bits x

/-- Refined addition: base checked addition, then the base remainder by the
modulus m; a panic of either base operation propagates. -/
def add (bits m a b : Nat) : Except Error Nat :=
  match Checked.add bits a b with
  | .error e => .error e
  | .ok c => Checked.rem bits c m

/-- Refined subtraction, exactly as the source writes it: when b is above a
it computes the wrap value (max - b) + a through base checked subtraction and
addition; otherwise it computes b - a through base checked subtraction. -/
def sub (bits m a b : Nat) : Except Error Nat :=
  if b > a then
    match Checked.sub bits m b with
    | .error e => .error e
    | .ok t => Checked.add bits t a
  else
    Checked.sub bits b a

/-- Refined multiplication: base checked multiplication, then the base
remainder by the modulus m; a panic of either base operation propagates. -/
def mul (bits m a b : Nat) : Except Error Nat :=
  match Checked.mul bits a b with
  | .error e => .error e
  | .ok c => Checked.rem bits c m

/-- Refined division: delegates to the base checked division; the modulus
plays no role. -/
def div (bits _m a b : Nat) : Except Error Nat :=
  Checked.div bits a b

/-- Refined remainder: delegates to the base checked remainder; the modulus
plays no role. -/
def rem (bits _m a b : Nat) : Except Error Nat :=
  Checked.rem bits a b

end Refined

namespace Checked

theorem numBytes_pos {bits : Nat} (hb : 1 ≤ bits) : 1 ≤ numBytes bits := by
  unfold numBytes
  omega

theorem digitsBE_pos (fuel y : Nat) (hy : y ≠ 0) : 1 ≤ digitsBE fuel y := by
  obtain ⟨z, rfl⟩ : ∃ z, y = z + 1 := ⟨y - 1, by omega⟩
  cases fuel with
  | zero => simp [digitsBE]
  | succ f =>
    show 1 ≤ digitsBE f ((z + 1) / 256) + 1
    omega

theorem byteLength_pos (x : Nat) : 1 ≤ byteLength x := by
  unfold byteLength
  split
  · omega
  · next hx => exact digitsBE_pos x x hx

theorem digitsBE_le_iff (fuel : Nat) :
    ∀ y B, y ≤ fuel → (digitsBE fuel y ≤ B ↔ y < 256 ^ B) := by
  induction fuel with
  | zero =>
    intro y B hy
    have hy0 : y = 0 := Nat.le_zero.mp hy
    subst hy0
    simp [digitsBE]
  | succ f ih =>
    intro y B hy
    by_cases hy0 : y = 0
    · subst hy0
      simp [digitsBE]
    · obtain ⟨z, rfl⟩ : ∃ z, y = z + 1 := ⟨y - 1, by omega⟩
      show digitsBE f ((z + 1) / 256) + 1 ≤ B ↔ z + 1 < 256 ^ B
      cases B with
      | zero =>
        rw [pow_zero]
        omega
      | succ c =>
        have hdiv : (z + 1) / 256 ≤ f := by
          have := Nat.div_lt_self (by omega : 0 < z + 1) (by omega : 1 < 256)
          omega
        have hih := ih ((z + 1) / 256) c hdiv
        rw [pow_succ]
        constructor
        · intro h
          have h1 : digitsBE f ((z + 1) / 256) ≤ c := by omega
          have h2 : (z + 1) / 256 < 256 ^ c := hih.mp h1
          have h3 : z + 1 < 256 ^ c * 256 :=
            (Nat.div_lt_iff_lt_mul (by omega : 0 < 256)).mp h2
          omega
        · intro h
          have h2 : (z + 1) / 256 < 256 ^ c :=
            (Nat.div_lt_iff_lt_mul (by omega : 0 < 256)).mpr (by omega)
          have h1 : digitsBE f ((z + 1) / 256) ≤ c := hih.mpr h2
          omega

theorem byteLength_le_iff (x B : Nat) (hB : 1 ≤ B) :
    byteLength x ≤ B ↔ x < 2 ^ (8 * B) := by
  have hpow : (2 : Nat) ^ (8 * B) = 256 ^ B := by
    rw [pow_mul]
    norm_num
  unfold byteLength
  by_cases hx : x = 0
  · subst hx
    rw [hpow]
    simp [hB]
  · simp only [hx, if_false]
    rw [hpow]
    exact digitsBE_le_iff x x B le_rfl

theorem capacity_pos (bits : Nat) : 0 < capacity bits :=
  Nat.pos_pow_of_pos _ (by omega)

theorem max_eq (bits : Nat) : max bits = 2 ^ (bits + 1) := by
  unfold max
  rw [Nat.shiftLeft_eq, Nat.pow_succ]
  ring

theorem fromBigUint_ok {bits x : Nat} (hb : 1 ≤ bits) (hx : x < capacity bits) :
    fromBigUint bits x = .ok x := by
  unfold fromBigUint
  have hB := numBytes_pos hb
  have : byteLength x ≤ numBytes bits := (byteLength_le_iff x _ hB).mpr hx
  simp [Nat.not_lt.mpr this]

theorem fromBigUint_err {bits x : Nat} (hx : capacity bits ≤ x) :
    fromBigUint bits x = .error .StorageTooNarrow := by
  unfold fromBigUint
  by_cases hB : 1 ≤ numBytes bits
  · have : ¬ byteLength x ≤ numBytes bits := by
      intro h
      exact absurd ((byteLength_le_iff x _ hB).mp h) (Nat.not_lt.mpr hx)
    simp [Nat.lt_of_not_le this]
  · have h0 : numBytes bits = 0 := by omega
    have := byteLength_pos x
    simp [h0]
    omega

theorem fromBigUint_ok_bound {bits x v : Nat}
    (h : fromBigUint bits x = .ok v) : v < capacity bits := by
  unfold fromBigUint at h
  split at h
  · exact absurd h (by simp)
  · next hle =>
    have hvx : v = x := by
      injection h with h
      exact h.symm
    have hB : 1 ≤ numBytes bits :=
      le_trans (byteLength_pos x) (Nat.not_lt.mp hle)
    subst hvx
    exact (byteLength_le_iff v _ hB).mp (Nat.not_lt.mp hle)

theorem numBytes_aligned {bits : Nat} (h8 : bits % 8 = 0) :
    8 * numBytes bits = bits := by
  unfold numBytes
  omega

theorem capacity_aligned {bits : Nat} (h8 : bits % 8 = 0) :
    capacity bits = 2 ^ bits := by
  unfold capacity
  rw [numBytes_aligned h8]

theorem one_shiftLeft_eq (k : Nat) : (1 : Nat) <<< k = 2 ^ k := by
  rw [Nat.shiftLeft_eq, one_mul]

end Checked

instance instDecidableEqExcept {ε α : Type} [DecidableEq ε] [DecidableEq α] :
    DecidableEq (Except ε α) := fun x y =>
  match x, y with
  | .ok a, .ok b =>
    if h : a = b then .isTrue (by rw [h]) else .isFalse (by simp [h])
  | .error e, .error f =>
    if h : e = f then .isTrue (by rw [h]) else .isFalse (by simp [h])
  | .ok _, .error _ => .isFalse (by simp)
  | .error _, .ok _ => .isFalse (by simp)

/-- Holds of an operation result when a returned value fits the fixed byte
buffer of the generated type (error results carry no value). -/
def resultBounded (bits : Nat) : Except Error Nat → Bool
  | .ok v => decide (v < Checked.capacity bits)
  | .error _ => true

theorem resultBounded_fromBigUint (bits x : Nat) :
    resultBounded bits (Checked.fromBigUint bits x) = true := by
  unfold Checked.fromBigUint
  split
  · rfl
  · next h =>
    have hB : 1 ≤ Checked.numBytes bits :=
      le_trans (Checked.byteLength_pos x) (Nat.not_lt.mp h)
    have hx : x < Checked.capacity bits :=
      (Checked.byteLength_le_iff x _ hB).mp (Nat.not_lt.mp h)
    simp [resultBounded, hx]

/-- C1: refined modular subtraction is claimed to return a - b when a ≥ b
and max - b + a when a < b. The code swaps the operands in the first case:
with modulus 255, a = 5, b = 2 it computes b - a through the base checked
subtraction and fails with Underflow instead of returning 3; the wrap case
(a = 2, b = 5, giving 252) and the equal case (giving 0) do work. -/
theorem c1_refined_sub_swapped_operands :
    Refined.sub 8 255 5 2 = .error .Underflow ∧
    Refined.sub 8 255 5 2 ≠ .ok 3 ∧
    Refined.sub 8 255 2 5 = .ok 252 ∧
    Refined.sub 8 255 5 5 = .ok 0 := by decide

/-- C2: for the 16-bit checked type the sum 65530 + 6 = 65536 exceeds the
intended bound 0xFFFF, yet the code does not fail with Overflow: its max()
is 2 <<< 16 = 131072, so the overflow branch does not fire and the failure
happens in the big-integer-to-bytes conversion instead. -/
theorem c2_add_16bit_overflow_misreported :
    Checked.from_literal 16 65530 = .ok 65530 ∧
    Checked.from_literal 16 6 = .ok 6 ∧
    65530 + 6 ≤ Checked.max 16 ∧
    Checked.add 16 65530 6 = .error .StorageTooNarrow ∧
    Checked.add 16 65530 6 ≠ .error .Overflow := by decide

/-- C3 counterexample: for the 8-bit checked type, 2 ^ 8 = 256 does not
exceed max() = 512, yet pow2(8) fails, and it fails with the byte-conversion
error rather than OutOfRange. -/
theorem c3_pow2_counterexample :
    Checked.pow2 8 8 = .error .StorageTooNarrow ∧
    2 ^ 8 ≤ Checked.max 8 ∧
    Checked.pow2 8 8 ≠ .ok (2 ^ 8) ∧
    Checked.pow2 8 8 ≠ .error .OutOfRange := by decide

/-- C3 amended: pow2 performs no comparison against max() at all; it returns
2 ^ k exactly when 2 ^ k fits the fixed byte buffer, and otherwise fails with
the byte-conversion error StorageTooNarrow. -/
theorem c3_pow2_amended (bits k : Nat) (hb : 1 ≤ bits) :
    Checked.pow2 bits k =
      if 2 ^ k < Checked.capacity bits then .ok (2 ^ k)
      else .error .StorageTooNarrow := by
  unfold Checked.pow2
  rw [Checked.one_shiftLeft_eq]
  split
  · next h => exact Checked.fromBigUint_ok hb h
  · next h => exact Checked.fromBigUint_err (by omega)

/-- C3 witness: the amended statement evaluated for the 8-bit type at k = 3,
where pow2 returns 8. -/
theorem c3_pow2_amended_witness :
    Checked.pow2 8 3 =
      if 2 ^ 3 < Checked.capacity 8 then .ok (2 ^ 3)
      else .error .StorageTooNarrow :=
  c3_pow2_amended 8 3 (by decide)

/-- C4 counterexample: with modulus 255 over the 8-bit base, from_literal
accepts the modulus itself and wraps the unreduced magnitude 255, which is
not strictly below the modulus. -/
theorem c4_from_literal_at_modulus :
    Refined.from_literal 8 255 255 = .ok 255 ∧ ¬ (255 < 255) := by decide

/-- C4 amended: refined from_literal succeeds exactly for literals at most
the modulus (an inclusive bound), wrapping the literal itself with no modular
reduction, and rejects larger literals with OutOfRange; so a successfully
constructed value has magnitude at most m, with equality possible at x = m. -/
theorem c4_from_literal_le_modulus (bits m x : Nat) (hb : 1 ≤ bits)
    (hm : m < Checked.capacity bits) :
    (Refined.from_literal bits m x = .ok x ↔ x ≤ m) ∧
    (m < x → Refined.from_literal bits m x = .error .OutOfRange) := by
  constructor
  · constructor
    · intro h
      unfold Refined.from_literal at h
      split at h
      · exact absurd h (by simp)
      · next hx => omega
    · intro h
      unfold Refined.from_literal
      rw [if_neg (by omega)]
      exact Checked.fromBigUint_ok hb (by omega)
  · intro h
    unfold Refined.from_literal
    rw [if_pos (by omega)]

/-- C4 witness: the amended statement evaluated with modulus 255 over the
8-bit base at the literal 200. -/
theorem c4_from_literal_le_modulus_witness :
    (Refined.from_literal 8 255 200 = .ok 200 ↔ 200 ≤ 255) ∧
    (255 < 200 → Refined.from_literal 8 255 200 = .error .OutOfRange) :=
  c4_from_literal_le_modulus 8 255 200 (by decide) (by decide)

/-- C5: for the 8-bit checked type the literal 256 satisfies 256 ≤ max()
= 512, yet from_literal fails: the literal passes the max() bound check and
then hits the byte-conversion panic, so the claimed round-trip for all
x ≤ max() does not hold on the code. -/
theorem c5_roundtrip_gap_at_capacity :
    256 ≤ Checked.max 8 ∧
    Checked.from_literal 8 256 = .error .StorageTooNarrow ∧
    Checked.from_literal 8 256 ≠ .error .OutOfRange ∧
    Checked.from_literal 8 200 = .ok 200 ∧
    Checked.toBigUint 200 = 200 := by decide

/-- C6: refined modular multiplication returns the product reduced modulo the
modulus m whenever the exact product fits the base type, and fails (the base
checked multiplication panics) whenever the exact product exceeds what the
base type accepts: with the overflow error above the base max() and with the
byte-conversion error when the product needs more bytes than the fixed
buffer; so the operation is not total over pairs of reduced residues. -/
theorem c6_refined_mul_partial (bits m a b : Nat) (hb : 1 ≤ bits)
    (hm0 : 0 < m) (hm : m < Checked.capacity bits) :
    (a * b ≤ Checked.max bits → a * b < Checked.capacity bits →
      Refined.mul bits m a b = .ok (a * b % m)) ∧
    (Checked.max bits < a * b → Refined.mul bits m a b = .error .Overflow) ∧
    (Checked.capacity bits ≤ a * b → a * b ≤ Checked.max bits →
      Refined.mul bits m a b = .error .StorageTooNarrow) := by
  refine ⟨?_, ?_, ?_⟩
  · intro h1 h2
    unfold Refined.mul
    have hmul : Checked.mul bits a b = .ok (a * b) := by
      unfold Checked.mul
      rw [if_neg (by omega)]
      exact Checked.fromBigUint_ok hb h2
    rw [hmul]
    show Checked.rem bits (a * b) m = .ok (a * b % m)
    unfold Checked.rem
    rw [if_neg (by omega)]
    exact Checked.fromBigUint_ok hb (lt_trans (Nat.mod_lt _ hm0) hm)
  · intro h
    unfold Refined.mul
    have hmul : Checked.mul bits a b = .error .Overflow := by
      unfold Checked.mul
      rw [if_pos (by omega)]
    rw [hmul]
  · intro h1 h2
    unfold Refined.mul
    have hmul : Checked.mul bits a b = .error .StorageTooNarrow := by
      unfold Checked.mul
      rw [if_neg (by omega)]
      exact Checked.fromBigUint_err h1
    rw [hmul]

/-- C6 witness: with modulus 255 over the 8-bit base, the reduced residues
16 and 16 multiply to 256, which does not fit the one-byte buffer, so the
refined multiplication fails there. -/
theorem c6_refined_mul_partial_witness :
    (16 * 16 ≤ Checked.max 8 → 16 * 16 < Checked.capacity 8 →
      Refined.mul 8 255 16 16 = .ok (16 * 16 % 255)) ∧
    (Checked.max 8 < 16 * 16 → Refined.mul 8 255 16 16 = .error .Overflow) ∧
    (Checked.capacity 8 ≤ 16 * 16 → 16 * 16 ≤ Checked.max 8 →
      Refined.mul 8 255 16 16 = .error .StorageTooNarrow) :=
  c6_refined_mul_partial 8 255 16 16 (by decide) (by decide) (by decide)

/-- C7: for a checked type whose bit count is a multiple of 8, any two
representable operands sum to at most max() = 2 ^ (bits + 1), so the Overflow
branch of addition never fires; a sum needing more bytes than the fixed
buffer instead fails in the big-integer-to-bytes conversion. -/
theorem c7_add_overflow_branch_unreachable (bits a b : Nat)
    (h8 : bits % 8 = 0)
    (ha : a < Checked.capacity bits) (hbv : b < Checked.capacity bits) :
    a + b ≤ Checked.max bits ∧
    Checked.add bits a b ≠ .error .Overflow ∧
    (Checked.capacity bits ≤ a + b →
      Checked.add bits a b = .error .StorageTooNarrow) := by
  have hC : Checked.capacity bits = 2 ^ bits := Checked.capacity_aligned h8
  have hM : Checked.max bits = 2 ^ bits * 2 := by
    rw [Checked.max_eq, Nat.pow_succ]
  have hsum : a + b ≤ Checked.max bits := by
    rw [hC] at ha hbv
    omega
  refine ⟨hsum, ?_, ?_⟩
  · unfold Checked.add
    rw [if_neg (by omega)]
    unfold Checked.fromBigUint
    split
    · simp
    · simp
  · intro h
    unfold Checked.add
    rw [if_neg (by omega)]
    exact Checked.fromBigUint_err h

/-- C7 witness: for the 8-bit type with operands 200 and 100, the sum 300 is
below max() = 512, the result is not the Overflow error, and since 300 does
not fit one byte the addition fails in the byte conversion. -/
theorem c7_add_overflow_branch_unreachable_witness :
    200 + 100 ≤ Checked.max 8 ∧
    Checked.add 8 200 100 ≠ .error .Overflow ∧
    (Checked.capacity 8 ≤ 200 + 100 →
      Checked.add 8 200 100 = .error .StorageTooNarrow) :=
  c7_add_overflow_branch_unreachable 8 200 100 (by decide) (by decide)
    (by decide)

/-- C8 counterexample: with modulus 255 over the 8-bit base, the literals
254, 2 and 1 are all accepted, but 254 + 2 does not wrap to 1: the base
checked addition of 254 and 2 produces 256, which does not fit the one-byte
buffer, so the refined addition fails before reducing modulo 255. -/
theorem c8_wraparound_counterexample :
    Refined.from_literal 8 255 254 = .ok 254 ∧
    Refined.from_literal 8 255 2 = .ok 2 ∧
    Refined.from_literal 8 255 1 = .ok 1 ∧
    Refined.add 8 255 254 2 = .error .StorageTooNarrow ∧
    Refined.add 8 255 254 2 ≠ Refined.from_literal 8 255 1 := by decide

/-- C8 amended: for a refined modular type with modulus m at least 2, when
the sum m + 1 fits the base type (it is at most max() and below the byte
capacity), the literals m - 1, 2 and 1 are accepted and
from_literal(m - 1) + from_literal(2) equals from_literal(1). -/
theorem c8_wraparound_amended (bits m : Nat) (hb : 1 ≤ bits) (hm : 2 ≤ m)
    (hcap : m + 1 < Checked.capacity bits) (hmax : m + 1 ≤ Checked.max bits) :
    Refined.from_literal bits m (m - 1) = .ok (m - 1) ∧
    Refined.from_literal bits m 2 = .ok 2 ∧
    Refined.from_literal bits m 1 = .ok 1 ∧
    Refined.add bits m (m - 1) 2 = .ok 1 := by
  refine ⟨?_, ?_, ?_, ?_⟩
  · unfold Refined.from_literal
    rw [if_neg (by omega)]
    exact Checked.fromBigUint_ok hb (by omega)
  · unfold Refined.from_literal
    rw [if_neg (by omega)]
    exact Checked.fromBigUint_ok hb (by omega)
  · unfold Refined.from_literal
    rw [if_neg (by omega)]
    exact Checked.fromBigUint_ok hb (by omega)
  · unfold Refined.add
    have hadd : Checked.add bits (m - 1) 2 = .ok (m + 1) := by
      unfold Checked.add
      rw [if_neg (by omega)]
      have e : m - 1 + 2 = m + 1 := by omega
      rw [e]
      exact Checked.fromBigUint_ok hb hcap
    rw [hadd]
    show Checked.rem bits (m + 1) m = .ok 1
    unfold Checked.rem
    rw [if_neg (by omega)]
    have e1 : (m + 1) % m = 1 := by
      rw [Nat.add_mod_left]
      exact Nat.mod_eq_of_lt (by omega)
    rw [e1]
    exact Checked.fromBigUint_ok hb (by omega)

/-- C8 witness: the amended statement evaluated with modulus 255 over the
16-bit base, where 254 + 2 wraps to 1. -/
theorem c8_wraparound_amended_witness :
    Refined.from_literal 16 255 (255 - 1) = .ok (255 - 1) ∧
    Refined.from_literal 16 255 2 = .ok 2 ∧
    Refined.from_literal 16 255 1 = .ok 1 ∧
    Refined.add 16 255 (255 - 1) 2 = .ok 1 :=
  c8_wraparound_amended 16 255 (by decide) (by decide) (by decide) (by decide)

/-- C9: the literal 0 is accepted by both disciplines, and dividing or taking
the remainder by it fails with DivisionByZero for the checked type and for
the refined modular type alike. -/
theorem c9_division_by_zero (bits m x : Nat) (hb : 1 ≤ bits) :
    Checked.from_literal bits 0 = .ok 0 ∧
    Refined.from_literal bits m 0 = .ok 0 ∧
    Checked.div bits x 0 = .error .DivisionByZero ∧
    Checked.rem bits x 0 = .error .DivisionByZero ∧
    Refined.div bits m x 0 = .error .DivisionByZero ∧
    Refined.rem bits m x 0 = .error .DivisionByZero := by
  refine ⟨?_, ?_, ?_, ?_, ?_, ?_⟩
  · unfold Checked.from_literal
    rw [if_neg (by omega)]
    exact Checked.fromBigUint_ok hb (Checked.capacity_pos bits)
  · unfold Refined.from_literal
    rw [if_neg (by omega)]
    exact Checked.fromBigUint_ok hb (Checked.capacity_pos bits)
  · unfold Checked.div
    simp
  · unfold Checked.rem
    simp
  · unfold Refined.div Checked.div
    simp
  · unfold Refined.rem Checked.rem
    simp

/-- C9 witness: division by zero evaluated for the 8-bit checked type and
for the refined type with modulus 255 at the dividend 77. -/
theorem c9_division_by_zero_witness :
    Checked.from_literal 8 0 = .ok 0 ∧
    Refined.from_literal 8 255 0 = .ok 0 ∧
    Checked.div 8 77 0 = .error .DivisionByZero ∧
    Checked.rem 8 77 0 = .error .DivisionByZero ∧
    Refined.div 8 255 77 0 = .error .DivisionByZero ∧
    Refined.rem 8 255 77 0 = .error .DivisionByZero :=
  c9_division_by_zero 8 255 77 (by decide)

/-- C10: every operation of a checked type that returns a value returns one
fitting the fixed byte buffer, that is one of magnitude strictly below
2 ^ (8 * numBytes bits); the conversion to the big-integer magnitude is the
identity on that stored magnitude, hence total and bounded by the same. -/
theorem c10_all_results_fit_buffer (bits a b x k : Nat) :
    resultBounded bits (Checked.fromBigUint bits x) = true ∧
    resultBounded bits (Checked.from_literal bits x) = true ∧
    resultBounded bits (Checked.pow2 bits k) = true ∧
    resultBounded bits (Checked.add bits a b) = true ∧
    resultBounded bits (Checked.sub bits a b) = true ∧
    resultBounded bits (Checked.mul bits a b) = true ∧
    resultBounded bits (Checked.div bits a b) = true ∧
    resultBounded bits (Checked.rem bits a b) = true := by
  refine ⟨resultBounded_fromBigUint bits x, ?_, ?_, ?_, ?_, ?_, ?_, ?_⟩
  · unfold Checked.from_literal
    split
    · rfl
    · exact resultBounded_fromBigUint bits x
  · unfold Checked.pow2
    exact resultBounded_fromBigUint bits (1 <<< k)
  · unfold Checked.add
    split
    · rfl
    · exact resultBounded_fromBigUint bits (a + b)
  · unfold Checked.sub
    split
    · exact resultBounded_fromBigUint bits (a - b)
    · rfl
  · unfold Checked.mul
    split
    · rfl
    · exact resultBounded_fromBigUint bits (a * b)
  · unfold Checked.div
    split
    · rfl
    · exact resultBounded_fromBigUint bits (a / b)
  · unfold Checked.rem
    split
    · rfl
    · exact resultBounded_fromBigUint bits (a % b)

end AbstractIntegers
